import Mathlib

/-!
Verification of the model-serving subsystem of the `BotCommand` backend
(`osrs_backend/tcp/server.py`, `osrs_backend/tcp/protocol.py`,
`osrs_backend/ml/remote_processor.py`, `osrs_backend/ml/ppo.py`).

The Python code is shallowly embedded:

* pure request/response processing becomes total Lean functions;
* the thread-safe model cache (`ThreadedProcessor._load_model`) is embedded
  twice: once as a sequential state-passing function (for claims about a
  single caller), and once as an interleaving transition system over explicit
  thread program counters (for claims about concurrent callers);
* numeric payloads (observations, probabilities, values) are opaque to every
  claim considered here, so they are represented by `Int`;
* JSON text on the wire is modelled down to the exact strings produced by
  `json.dumps` for the characters that actually occur in these messages.
-/

namespace BotCommand

/-! ## Action-mask flattening and splitting (`TCPInferenceServer._process_request`)

`_process_request` flattens the per-head action masks with
`itertools.chain.from_iterable`, and splits per-action probability output at
`cumulative_sizes = [0] + list(itertools.accumulate(action_head_sizes))`,
taking `flattened_probs[0, cumulative_sizes[i] : cumulative_sizes[i + 1]]`
for each head `i`. -/

/-- `itertools.accumulate` with a running sum starting at `acc`
(`pyAccumulate 0 [a, b, c] = [a, a + b, a + b + c]`). -/
def pyAccumulate (acc : Nat) : List Nat → List Nat
  | [] => []
  | x :: xs => (acc + x) :: pyAccumulate (acc + x) xs

/-- `cumulative_sizes = [0] + list(itertools.accumulate(action_head_sizes))`. -/
def cumulativeSizes (sizes : List Nat) : List Nat :=
  0 :: pyAccumulate 0 sizes

/-- Python list slice `l[a:b]` for `0 ≤ a ≤ b`. -/
def pySlice (l : List α) (a b : Nat) : List α :=
  (l.drop a).take (b - a)

/-- The probability-splitting comprehension in `_process_request`:
`[flattened[cum[i] : cum[i+1]] for i in range(len(sizes))]` (the leading
batch index `0` of the tensor is dropped: `payload` is the single row). -/
def splitByHeads (payload : List α) (sizes : List Nat) : List (List α) :=
  (List.range sizes.length).map fun i =>
    pySlice payload ((cumulativeSizes sizes).getD i 0)
      ((cumulativeSizes sizes).getD (i + 1) 0)

/-- Reference recursive splitter: cut a list into chunks of the given sizes. -/
def chunks : List Nat → List α → List (List α)
  | [], _ => []
  | n :: ns, l => l.take n :: chunks ns (l.drop n)

/-! ## Wire protocol (`osrs_backend/tcp/protocol.py`)

`InferenceRequest` and `InferenceResponse` are frozen dataclasses.  The
dataclass constructor performs no type validation, so decoding success
depends only on the set of JSON keys; field values are carried here already
typed.  Numbers are represented by `Int`. -/

/-- `InferenceRequest` dataclass fields, with the dataclass defaults. -/
structure InferenceRequest where
  model : String
  actionMasks : List (List Bool)
  obs : List (List Int)
  deterministic : Sum Bool (List Bool) := Sum.inl false
  returnLogProb : Bool := false
  returnEntropy : Bool := false
  returnValue : Bool := false
  returnProbs : Bool := false
  extensions : List String := []
deriving DecidableEq

/-- `InferenceResponse` dataclass fields. `None` becomes `Option.none`. -/
structure InferenceResponse where
  action : List Int
  logProb : Option Int
  entropy : Option (List Int)
  values : Option (List Int)
  probs : Option (List (List Int))
  extensionResults : List Int
deriving DecidableEq

/-- The nine declared fields of the `InferenceRequest` dataclass, in
declaration order. -/
def declaredFields : List String :=
  ["model", "actionMasks", "obs", "deterministic", "returnLogProb",
   "returnEntropy", "returnValue", "returnProbs", "extensions"]

/-- The fields without defaults; `InferenceRequest(**kw)` requires them. -/
def requiredFields : List String := ["model", "actionMasks", "obs"]

/-- One inbound line after `json.loads`: either the line was not valid JSON
(`notJson` carries `str(e)` of the decode error), or it parsed to an object
with the given key set, whose typed content is `req` (the dataclass performs
no type validation, so only the keys decide constructor success). -/
inductive Line where
  | notJson (emsg : String)
  | obj (keys : List String) (req : InferenceRequest)

/-- `TypeError` text for an unexpected keyword argument. -/
def unexpectedKwMsg (k : String) : String :=
  "InferenceRequest.__init__() got an unexpected keyword argument \x27" ++ k ++ "\x27"

/-- `TypeError` text for a missing required argument. -/
def missingArgMsg (k : String) : String :=
  "InferenceRequest.__init__() missing required argument \x27" ++ k ++ "\x27"

/-- `request = InferenceRequest(**json.loads(line))`: fails when the line is
not JSON, when a key is not a declared dataclass field, or when a required
field is absent. -/
def decodeLine : Line → Except String InferenceRequest
  | Line.notJson e => Except.error e
  | Line.obj keys req =>
    match keys.find? (fun k => !(declaredFields.contains k)) with
    | some k => Except.error (unexpectedKwMsg k)
    | none =>
      match requiredFields.find? (fun k => !(keys.contains k)) with
      | some k => Except.error (missingArgMsg k)
      | none => Except.ok req

/-! ## JSON output (`json.dumps` with default separators) -/

/-- `json.dumps` string escaping, restricted to the escapes that can occur in
this server's messages (quote and backslash; the messages contain no control
characters). -/
def jsonEscape (s : String) : String :=
  String.mk (s.data.flatMap fun c =>
    if c = '"' then ['\\', '"']
    else if c = '\\' then ['\\', '\\']
    else [c])

/-- A JSON string literal. -/
def jsonStr (s : String) : String := "\"" ++ jsonEscape s ++ "\""

/-- The error line `json.dumps({"error": str(e)}) + "\n"` without the
trailing newline. -/
def errorLine (msg : String) : String :=
  "\x7b\"error\": " ++ jsonStr msg ++ "\x7d"

/-- JSON list of numbers. -/
def jsonIntList (l : List Int) : String :=
  "[" ++ String.intercalate ", " (l.map toString) ++ "]"

/-- JSON number-or-null. -/
def jsonOptInt : Option Int → String
  | none => "null"
  | some i => toString i

/-- JSON list-or-null. -/
def jsonOptIntList : Option (List Int) → String
  | none => "null"
  | some l => jsonIntList l

/-- JSON list-of-lists-or-null. -/
def jsonOptIntListList : Option (List (List Int)) → String
  | none => "null"
  | some l => "[" ++ String.intercalate ", " (l.map jsonIntList) ++ "]"

/-- The response line `json.dumps(dataclasses.asdict(response))` (fields in
dataclass declaration order) without the trailing newline. -/
def responseLine (r : InferenceResponse) : String :=
  "\x7b\"action\": " ++ jsonIntList r.action ++
  ", \"logProb\": " ++ jsonOptInt r.logProb ++
  ", \"entropy\": " ++ jsonOptIntList r.entropy ++
  ", \"values\": " ++ jsonOptIntList r.values ++
  ", \"probs\": " ++ jsonOptIntListList r.probs ++
  ", \"extensionResults\": " ++ jsonIntList r.extensionResults ++ "\x7d"

/-! ## Model catalog and request processing (`TCPInferenceServer`) -/

/-- The server state used by request processing: the model catalog
`self.models` as the insertion-ordered name-to-path dictionary built at
construction, plus `self.pool_size`. -/
structure Server where
  models : List (String × String)
  poolSize : Nat := 1

/-- Python dict membership plus lookup (`model_name not in self.models`,
`self.models[model_name]`); catalog keys are distinct, so first match. -/
def lookupAssoc (l : List (String × String)) (k : String) : Option String :=
  (l.find? (fun e => e.1 == k)).map (·.2)

/-- Python `str` of a list of strings (`f"... {list(self.models.keys())}"`):
each element in single-quote `repr` form.  (Catalog names come from file
names and contain no quote or escape characters.) -/
def pyStrListRepr (names : List String) : String :=
  "[" ++ String.intercalate ", " (names.map fun s => "\x27" ++ s ++ "\x27") ++ "]"

/-- `str(ValueError(f"Unknown model: {model_name}. Available: {list(self.models.keys())}"))`. -/
def unknownModelMsg (name : String) (names : List String) : String :=
  "Unknown model: " ++ name ++ ". Available: " ++ pyStrListRepr names

/-- Modelled from the spec: the policy network forward pass.
`osrs_backend/ml/policy.py` (class `Policy`) is not part of the sources;
per spec section 3 its outputs are opaque numbers.  A `PolicyNet` gives, for
a model path, observation frames and a flattened action mask, the computed
action per head, log probability, per-head entropy, value estimate and
flattened per-action probabilities. -/
structure PolicyOut where
  actions : List Int
  logProbs : Int
  entropy : List Int
  values : List Int
  probs : List Int

/-- Modelled from the spec: the opaque policy forward computation
(see `PolicyOut`). -/
def PolicyNet : Type :=
  String → List (List Int) → List Bool → PolicyOut

/-- Modelled from the spec: the opaque `ModelExtension.run_extension` result
for an extension name run against a model path. -/
def ExtensionNet : Type := String → String → Int

/-- `PPO.predict` as called from `_worker_task`: runs the policy and gates
each optional output on its flag (per spec section 3 an optional output is
present exactly when its flag is set; the gating of the policy outputs lives
in the absent `Policy` code and is modelled from the spec).  Extension
results are computed in request order. -/
def ppoPredict (net : PolicyNet) (ext : ExtensionNet) (path : String)
    (obs : List (List Int)) (masks : List Bool)
    (returnLogProb returnEntropy returnValue returnProbs : Bool)
    (extensions : List String) :
    List Int × Option Int × Option (List Int) × Option (List Int) ×
      Option (List Int) × List Int :=
  let o := net path obs masks
  (o.actions,
   if returnLogProb then some o.logProbs else none,
   if returnEntropy then some o.entropy else none,
   if returnValue then some o.values else none,
   if returnProbs then some o.probs else none,
   extensions.map (ext path))

/-- `TCPInferenceServer._process_request`: reject unknown models with the
`ValueError` message; flatten the per-head masks; run the prediction; split
the flattened probabilities (when requested and present) at the cumulative
boundaries of the original per-head mask lengths; assemble the response. -/
def processRequest (net : PolicyNet) (ext : ExtensionNet) (srv : Server)
    (req : InferenceRequest) : Except String InferenceResponse :=
  match lookupAssoc srv.models req.model with
  | none => Except.error (unknownModelMsg req.model (srv.models.map Prod.fst))
  | some path =>
    let rawActionMasks := req.actionMasks.flatten
    let out := ppoPredict net ext path req.obs rawActionMasks
      req.returnLogProb req.returnEntropy req.returnValue req.returnProbs
      req.extensions
    let probs : Option (List (List Int)) :=
      if req.returnProbs then
        match out.2.2.2.2.1 with
        | some fp => some (splitByHeads fp (req.actionMasks.map List.length))
        | none => none
      else none
    Except.ok
      { action := out.1
        logProb := out.2.1
        entropy := out.2.2.1
        values := out.2.2.2.1
        probs := probs
        extensionResults := out.2.2.2.2.2 }

/-- One iteration of the `_handle_client` loop body up to the point where a
line is written: decode, then process. -/
def requestOutcome (net : PolicyNet) (ext : ExtensionNet) (srv : Server)
    (l : Line) : Except String InferenceResponse := do
  let req ← decodeLine l
  processRequest net ext srv req

/-- The single line written for one inbound line: the serialized response on
success, otherwise the single-field error object (the `except` branch of
`_handle_client`). -/
def handleLine (net : PolicyNet) (ext : ExtensionNet) (srv : Server)
    (l : Line) : String :=
  match requestOutcome net ext srv l with
  | Except.error e => errorLine e
  | Except.ok resp => responseLine resp

/-- The `_handle_client` read loop over a whole connection: the lines read
before end-of-stream, in order, each answered by exactly one written line
(request-level failures are caught per-iteration and do not leave the
loop). -/
def handleClient (net : PolicyNet) (ext : ExtensionNet) (srv : Server)
    (lines : List Line) : List String :=
  lines.map (handleLine net ext srv)

/-! ## Catalog scan (`TCPInferenceServer.__init__`) -/

/-- `str.endswith`. -/
def pyEndsWith (f suffix : String) : Bool :=
  suffix.data.isSuffixOf f.data

/-- Index of the last `'.'` in a character list, if any. -/
def lastDotIdx : List Char → Option Nat
  | [] => none
  | c :: cs =>
    match lastDotIdx cs with
    | some i => some (i + 1)
    | none => if c = '.' then some 0 else none

/-- `os.path.splitext(f)[0]` for a bare file name (no separators): split at
the last dot, except that a dot with only dots before it is part of the root
(CPython `genericpath._splitext`: leading periods of the component are not
extension separators, e.g. `splitext(".zip") = (".zip", "")`). -/
def pySplitextRoot (f : String) : String :=
  match lastDotIdx f.data with
  | none => f
  | some i =>
    if (f.data.take i).any (fun c => c ≠ '.') then String.mk (f.data.take i) else f

/-- The spec's words for the catalog key: "the file name without that
extension", i.e. the name with the trailing `".zip"` removed. -/
def stripZip (f : String) : String :=
  String.mk (f.data.take (f.data.length - 4))

/-- The catalog comprehension in `__init__`:
`{splitext(f)[0]: str(models_path / f) for f in listdir(models_path) if f.endswith(".zip")}`,
as the insertion-ordered sequence of dictionary entries. -/
def scanModels (dir : String) (files : List String) : List (String × String) :=
  files.filterMap fun f =>
    if pyEndsWith f ".zip" then some (pySplitextRoot f, dir ++ "/" ++ f) else none

/-- `TCPInferenceServer.__init__`: scan the directory when it exists,
otherwise log a warning and start with an empty catalog. -/
def initServer (dir : String) (files : List String) (dirExists : Bool)
    (poolSize : Nat) : Server :=
  { models := if dirExists then scanModels dir files else []
    poolSize := poolSize }

/-- The `_preload_models` task comprehension: one preload per
`(pool slot, catalog entry)` pair. -/
def preloadTasks (srv : Server) : List (Nat × String) :=
  (List.range srv.poolSize).flatMap fun i => srv.models.map fun m => (i, m.2)

/-- `start`: preloads are issued only when the catalog is nonempty
(`if self.models: await self._preload_models()`). -/
def startupPreloads (srv : Server) : List (Nat × String) :=
  if srv.models.isEmpty then [] else preloadTasks srv

/-! ## The model cache, sequential view (`ThreadedProcessor._load_model`)

State of one `ThreadedProcessor` as observed by a single caller running
`_load_model` to completion without interference: the `_models` dictionary,
the `_model_locks` dictionary (entry presence), and a count of performed
`PPO.load` calls. -/

/-- `ThreadedProcessor` cache state. -/
structure CacheState where
  models : String → Option Nat
  modelLocks : String → Bool
  loadCount : String → Nat

/-- `PPO.load`: raise `ValueError(f"{load_path} not found")` when the path
does not exist, otherwise the checkpoint (opaque) is loaded. -/
def ppoLoad (fs : String → Option Nat) (p : String) : Except String Nat :=
  match fs p with
  | none => Except.error (p ++ " not found")
  | some ckpt => Except.ok ckpt

/-- `_load_model` run sequentially by one caller: fast path on a cached
model; otherwise create the per-location lock, double-check, attempt the
load (counted), and on success install the model and clean up the lock.  A
load failure propagates as the exception of `PPO.load` and skips both the
installation and the lock cleanup. -/
def loadModelSeq (loadFn : String → Except String Nat) (st : CacheState)
    (p : String) : Except String Nat × CacheState :=
  match st.models p with
  | some m => (Except.ok m, st)
  | none =>
    let st1 : CacheState :=
      { st with modelLocks := Function.update st.modelLocks p true }
    let st2 : CacheState :=
      { st1 with loadCount := Function.update st1.loadCount p (st1.loadCount p + 1) }
    match loadFn p with
    | Except.error e => (Except.error e, st2)
    | Except.ok h =>
      let st3 : CacheState :=
        { st2 with models := Function.update st2.models p (some h) }
      (Except.ok h, { st3 with modelLocks := Function.update st3.modelLocks p false })

/-! ## The model cache, concurrent view (`ThreadedProcessor._load_model`)

`K` worker threads concurrently execute `_load_model`, thread `t` for the
storage location `f t` (locations are numbered).  Shared state is exactly
the shared mutable state of `ThreadedProcessor`: the `_models` dictionary,
the `_model_locks` dictionary and the per-lock holders.  Each Python `with
self._lock_lock:` block touches only `_model_locks` and executes atomically
(all other accesses to `_model_locks` hold `_lock_lock`); every unprotected
access to `_models` is its own atomic step.  Lock objects are identified by
the generation counter `nextGen`, so that a thread holding a lock that was
later deleted from `_model_locks` (and possibly replaced by a fresh lock) is
represented faithfully. -/

/-- Program counter of a thread inside `_load_model`:
`start` — about to evaluate `model_path not in self._models` (line 176);
`reg` — about to run the `with self._lock_lock` block creating/fetching the
per-location lock (lines 178–181);
`acq` — blocked acquiring the fetched per-location lock (line 182);
`chk` — holding the lock, about to double-check `_models` (line 184);
`load` — about to call `PPO.load` (line 187);
`install` — load done, about to assign `self._models[model_path]` (line 187);
`rel` — about to release the per-location lock (end of `with` block);
`cleanup` — about to run the lock-deletion `with self._lock_lock` block
(lines 193–196);
`ret` — about to read `self._models[model_path]` for the return (line 197);
`done` — returned. -/
inductive PC where
  | start | reg | acq | chk | load | install | rel | cleanup | ret | done
deriving DecidableEq, Repr

/-- Local state of one thread: program counter, the reference to the lock
object it fetched from `_model_locks` (a generation number), and the value
it returned. -/
structure TState where
  pc : PC
  gen : Option Nat
  res : Option Nat
deriving DecidableEq, Repr

/-- Shared state of the `ThreadedProcessor` plus all thread-local states.
`models p` is `_models.get(p)`, `registry p` the generation of the lock
currently stored in `_model_locks[p]` (if present), `holder g` the thread
holding lock generation `g`, `loadCount p` the number of `PPO.load` calls
performed for `p`. -/
structure Sys (K : Nat) where
  models : Nat → Option Nat
  loadCount : Nat → Nat
  registry : Nat → Option Nat
  nextGen : Nat
  holder : Nat → Option (Fin K)
  ts : Fin K → TState

/-- The fresh `ThreadedProcessor`: empty `_models`, empty `_model_locks`,
all threads about to enter `_load_model`. -/
def initSys (K : Nat) : Sys K :=
  { models := fun _ => none
    loadCount := fun _ => 0
    registry := fun _ => none
    nextGen := 0
    holder := fun _ => none
    ts := fun _ => { pc := PC.start, gen := none, res := none } }

/-- One atomic step of thread `t` (the identity when `t` is blocked on its
lock or already done).  The loaded model object installed by a successful
load is tagged with the loading thread's index, so that handle identity is
observable. -/
def exec (f : Fin K → Nat) (t : Fin K) (s : Sys K) : Sys K :=
  match (s.ts t).pc with
  | PC.start =>
    if (s.models (f t)).isSome then
      { s with ts := Function.update s.ts t { s.ts t with pc := PC.ret } }
    else
      { s with ts := Function.update s.ts t { s.ts t with pc := PC.reg } }
  | PC.reg =>
    match s.registry (f t) with
    | some g =>
      { s with ts := Function.update s.ts t { s.ts t with pc := PC.acq, gen := some g } }
    | none =>
      { s with
        registry := Function.update s.registry (f t) (some s.nextGen)
        nextGen := s.nextGen + 1
        ts := Function.update s.ts t { s.ts t with pc := PC.acq, gen := some s.nextGen } }
  | PC.acq =>
    match (s.ts t).gen with
    | some g =>
      match s.holder g with
      | none =>
        { s with
          holder := Function.update s.holder g (some t)
          ts := Function.update s.ts t { s.ts t with pc := PC.chk } }
      | some _ => s
    | none => s
  | PC.chk =>
    if (s.models (f t)).isSome then
      { s with ts := Function.update s.ts t { s.ts t with pc := PC.rel } }
    else
      { s with ts := Function.update s.ts t { s.ts t with pc := PC.load } }
  | PC.load =>
    { s with
      loadCount := Function.update s.loadCount (f t) (s.loadCount (f t) + 1)
      ts := Function.update s.ts t { s.ts t with pc := PC.install } }
  | PC.install =>
    { s with
      models := Function.update s.models (f t) (some t.val)
      ts := Function.update s.ts t { s.ts t with pc := PC.rel } }
  | PC.rel =>
    match (s.ts t).gen with
    | some g =>
      { s with
        holder := Function.update s.holder g none
        ts := Function.update s.ts t { s.ts t with pc := PC.cleanup } }
    | none => s
  | PC.cleanup =>
    { s with
      registry := Function.update s.registry (f t) none
      ts := Function.update s.ts t { s.ts t with pc := PC.ret } }
  | PC.ret =>
    { s with
      ts := Function.update s.ts t
        { s.ts t with pc := PC.done, res := s.models (f t) } }
  | PC.done => s

/-- Run a schedule: execute one atomic step of each listed thread in order. -/
def run (f : Fin K → Nat) (sched : List (Fin K)) (s : Sys K) : Sys K :=
  sched.foldl (fun s t => exec f t s) s

/-- A state is reachable when some interleaving of the `K` threads produces
it from the fresh processor.  Threads are deterministic, so the schedule is
the only source of nondeterminism. -/
def Reaches (f : Fin K → Nat) (s : Sys K) : Prop :=
  ∃ sched : List (Fin K), s = run f sched (initSys K)

/-- The program counters at which a thread holds its per-location lock. -/
def lockPC (pc : PC) : Prop :=
  pc = PC.chk ∨ pc = PC.load ∨ pc = PC.install ∨ pc = PC.rel

/-- The inductive invariant of the cache protocol. -/
structure Inv (f : Fin K → Nat) (s : Sys K) : Prop where
  holdGen : ∀ g t, s.holder g = some t →
    (s.ts t).gen = some g ∧ lockPC (s.ts t).pc
  lockHolder : ∀ t, lockPC (s.ts t).pc →
    ∃ g, (s.ts t).gen = some g ∧ s.holder g = some t
  stale : ∀ t g, (s.ts t).gen = some g →
    s.registry (f t) = some g ∨ (s.models (f t)).isSome
  countLe : ∀ p, s.loadCount p ≤ 1
  someCount : ∀ p, (s.models p).isSome → s.loadCount p = 1
  loadPc : ∀ t, (s.ts t).pc = PC.load →
    s.models (f t) = none ∧ s.loadCount (f t) = 0
  installPc : ∀ t, (s.ts t).pc = PC.install →
    s.models (f t) = none ∧ s.loadCount (f t) = 1
  countSrc : ∀ p, 1 ≤ s.loadCount p →
    (s.models p).isSome ∨ ∃ t, f t = p ∧ (s.ts t).pc = PC.install
  lateSome : ∀ t,
    (s.ts t).pc = PC.rel ∨ (s.ts t).pc = PC.cleanup ∨ (s.ts t).pc = PC.ret →
    (s.models (f t)).isSome
  doneRes : ∀ t, (s.ts t).pc = PC.done →
    (s.ts t).res = s.models (f t) ∧ (s.models (f t)).isSome
  modelsSrc : ∀ p, (s.models p).isSome → ∃ t, f t = p

/-! ## Concrete instances used by witnesses -/

/-- A concrete opaque policy network. -/
def netW : PolicyNet := fun _ _ _ =>
  { actions := [0, 1], logProbs := 3, entropy := [1, 2], values := [5],
    probs := [1, 0, 0, 1, 0] }

/-- A concrete opaque extension evaluator. -/
def extW : ExtensionNet := fun _ _ => 7

/-- A server whose catalog holds only `bronze_agility`. -/
def srvBronze : Server :=
  { models := [("bronze_agility", "models/bronze_agility.zip")] }

/-- A request naming the absent model `iron_agility`. -/
def reqIron : InferenceRequest :=
  { model := "iron_agility", actionMasks := [[true]], obs := [[0]] }

/-- A valid request for `bronze_agility` with all optional flags at their
defaults (false). -/
def goodReq : InferenceRequest :=
  { model := "bronze_agility"
    actionMasks := [[true, false, true], [true, true]]
    obs := [[1, 0]] }

/-- The wire line carrying `reqIron`. -/
def lineIron : Line := Line.obj ["model", "actionMasks", "obs"] reqIron

/-- A line that is not valid JSON. -/
def lineBadW : Line := Line.notJson "Expecting value: line 1 column 1 (char 0)"

/-- The wire line carrying `goodReq`. -/
def lineGoodW : Line := Line.obj ["model", "actionMasks", "obs"] goodReq

/-- The response produced for `goodReq` by `netW`/`extW`. -/
def respW : InferenceResponse :=
  { action := [0, 1], logProb := none, entropy := none, values := none,
    probs := none, extensionResults := [] }

/-- A filesystem with no model files. -/
def fsNone : String → Option Nat := fun _ => none

/-- A fresh sequential cache state. -/
def cacheEmpty : CacheState :=
  { models := fun _ => none, modelLocks := fun _ => false, loadCount := fun _ => 0 }

/-- Two threads racing for the same location 0. -/
def c1Path : Fin 2 → Nat := fun _ => 0

/-- Schedule: thread 0 runs `_load_model` to completion, then thread 1
takes its fast path. -/
def c1Sched : List (Fin 2) := [0, 0, 0, 0, 0, 0, 0, 0, 0, 1, 1]

/-- Final state of the concrete two-thread race. -/
def c1Final : Sys 2 := run c1Path c1Sched (initSys 2)

/-- Pool size 1, catalog size 2: thread `t` preloads location `t % 2`. -/
def c5Path : Fin (1 * 2) → Nat := fun t => (t : Nat) % 2

/-- Schedule: each preload task runs to completion in turn. -/
def c5Sched : List (Fin (1 * 2)) :=
  List.replicate 9 ⟨0, by decide⟩ ++ List.replicate 9 ⟨1, by decide⟩

/-- Final state of the concrete warm-up run. -/
def c5Final : Sys (1 * 2) := run c5Path c5Sched (initSys (1 * 2))

/-! ## Lemmas: accumulate / slice / split -/

theorem pyAccumulate_shift (xs : List Nat) (a : Nat) :
    pyAccumulate a xs = (pyAccumulate 0 xs).map (a + ·) := by
  induction xs generalizing a with
  | nil => rfl
  | cons x xs ih =>
    simp only [pyAccumulate, List.map_cons, Nat.zero_add, List.cons.injEq,
      true_and]
    rw [ih (a + x), ih x, List.map_map]
    exact List.map_congr_left fun v _ => by simp [Function.comp, Nat.add_assoc]

theorem cumulativeSizes_cons (n : Nat) (ns : List Nat) :
    cumulativeSizes (n :: ns) = 0 :: (cumulativeSizes ns).map (n + ·) := by
  simp only [cumulativeSizes, pyAccumulate, Nat.zero_add, List.map_cons,
    Nat.add_zero, List.cons.injEq, true_and]
  exact pyAccumulate_shift ns n

theorem pyAccumulate_length (a : Nat) (xs : List Nat) :
    (pyAccumulate a xs).length = xs.length := by
  induction xs generalizing a with
  | nil => rfl
  | cons x xs ih => simp [pyAccumulate, ih]

theorem cumulativeSizes_length (xs : List Nat) :
    (cumulativeSizes xs).length = xs.length + 1 := by
  simp [cumulativeSizes, pyAccumulate_length]

theorem pySlice_add (l : List α) (n a b : Nat) :
    pySlice l (n + a) (n + b) = pySlice (l.drop n) a b := by
  simp [pySlice, ← List.drop_drop, Nat.add_sub_add_left, Nat.add_comm a n]

theorem splitByHeads_cons (payload : List α) (n : Nat) (ns : List Nat) :
    splitByHeads payload (n :: ns)
      = payload.take n :: splitByHeads (payload.drop n) ns := by
  simp only [splitByHeads, List.length_cons, List.range_succ_eq_map,
    List.map_cons, List.map_map, List.cons.injEq]
  constructor
  · simp [cumulativeSizes, pyAccumulate, pySlice]
  · refine List.map_congr_left fun i hi => ?_
    rw [List.mem_range] at hi
    have hlen : (cumulativeSizes ns).length = ns.length + 1 :=
      cumulativeSizes_length ns
    have hi1 : i < (cumulativeSizes ns).length := by omega
    have hi2 : i + 1 < (cumulativeSizes ns).length + 1 := by omega
    simp only [Function.comp, cumulativeSizes_cons]
    have hgd : ∀ j, j < (cumulativeSizes ns).length →
        ((0 : Nat) :: (cumulativeSizes ns).map (n + ·)).getD (j + 1) 0
          = n + (cumulativeSizes ns).getD j 0 := by
      intro j hj
      have : ((cumulativeSizes ns).map (n + ·)).getD j 0
          = n + (cumulativeSizes ns).getD j 0 := by
        rw [List.getD_eq_getElem?_getD, List.getElem?_map,
          List.getElem?_eq_getElem hj]
        simp [List.getD_eq_getElem?_getD, List.getElem?_eq_getElem hj]
      simpa using this
    by_cases hlast : i + 1 < (cumulativeSizes ns).length
    · rw [hgd i hi1, hgd (i + 1) hlast, pySlice_add]
    · -- `i + 1 = (cumulativeSizes ns).length`: the final boundary
      have hieq : i + 1 = (cumulativeSizes ns).length := by omega
      rw [hgd i hi1]
      have hnone1 : ((0 : Nat) :: (cumulativeSizes ns).map (n + ·)).getD (i + 1 + 1) 0
          = 0 := by
        rw [List.getD_eq_getElem?_getD, List.getElem?_eq_none]
        · rfl
        · simp [hieq]
      have hnone2 : (cumulativeSizes ns).getD (i + 1) 0 = 0 := by
        rw [List.getD_eq_getElem?_getD, List.getElem?_eq_none] <;> simp [hieq]
      rw [hnone1, hnone2]
      simp [pySlice, Nat.sub_eq_zero_of_le (Nat.le_add_right _ _)]

theorem splitByHeads_eq_chunks (sizes : List Nat) (payload : List α) :
    splitByHeads payload sizes = chunks sizes payload := by
  induction sizes generalizing payload with
  | nil => rfl
  | cons n ns ih => rw [splitByHeads_cons, chunks, ih]

theorem chunks_map_length (sizes : List Nat) (payload : List α)
    (h : payload.length = sizes.sum) :
    (chunks sizes payload).map List.length = sizes := by
  induction sizes generalizing payload with
  | nil => rfl
  | cons n ns ih =>
    simp only [chunks, List.map_cons, List.cons.injEq]
    constructor
    · simp only [List.sum_cons] at h
      simp [List.length_take, h]
    · exact ih _ (by simp only [List.length_drop, h, List.sum_cons]; omega)

theorem chunks_flatten (sizes : List Nat) (payload : List α)
    (h : payload.length = sizes.sum) :
    (chunks sizes payload).flatten = payload := by
  induction sizes generalizing payload with
  | nil =>
    simp only [List.sum_nil] at h
    simp [chunks, List.length_eq_zero.mp h]
  | cons n ns ih =>
    simp only [chunks, List.flatten_cons]
    rw [ih _ (by simp only [List.length_drop, h, List.sum_cons]; omega),
      List.take_append_drop]

theorem chunks_of_flatten (xss : List (List α)) :
    chunks (xss.map List.length) xss.flatten = xss := by
  induction xss with
  | nil => rfl
  | cons x xss ih =>
    simp only [List.map_cons, List.flatten_cons, chunks,
      List.take_left, List.drop_left, List.cons.injEq, true_and]
    exact ih

/-! ## Claim theorems: request pipeline, catalog, sequential cache -/

/-- C3: for any per-head mask list and any payload of matching total length,
splitting at the cumulative boundaries of the per-head lengths reproduces the
per-head grouping (lengths and content), and splitting the flattened masks
themselves reproduces the original masks; for lengths `[3, 2, 4]` the
boundaries are `[0, 3, 5, 9]`. -/
theorem C3_flatten_split_round_trip (masks : List (List Bool))
    (payload : List α)
    (h : payload.length = (masks.map List.length).sum) :
    cumulativeSizes [3, 2, 4] = [0, 3, 5, 9]
    ∧ (splitByHeads payload (masks.map List.length)).map List.length
        = masks.map List.length
    ∧ (splitByHeads payload (masks.map List.length)).flatten = payload
    ∧ splitByHeads masks.flatten (masks.map List.length) = masks := by
  refine ⟨by decide, ?_, ?_, ?_⟩
  · rw [splitByHeads_eq_chunks]; exact chunks_map_length _ _ h
  · rw [splitByHeads_eq_chunks]; exact chunks_flatten _ _ h
  · rw [splitByHeads_eq_chunks]; exact chunks_of_flatten masks

/-- C3 witness: the round trip at mask lengths `[3, 2, 4]` and a concrete
9-element payload. -/
theorem C3_flatten_split_round_trip_witness :
    ([10, 11, 12, 13, 14, 15, 16, 17, 18] : List Int).length
      = (([[true, true, true], [false, false], [true, false, true, true]]).map
          List.length).sum
    ∧ (cumulativeSizes [3, 2, 4] = [0, 3, 5, 9]
    ∧ (splitByHeads ([10, 11, 12, 13, 14, 15, 16, 17, 18] : List Int)
        (([[true, true, true], [false, false], [true, false, true, true]]).map
          List.length)).map List.length
        = ([[true, true, true], [false, false], [true, false, true, true]]).map
            List.length
    ∧ (splitByHeads ([10, 11, 12, 13, 14, 15, 16, 17, 18] : List Int)
        (([[true, true, true], [false, false], [true, false, true, true]]).map
          List.length)).flatten = [10, 11, 12, 13, 14, 15, 16, 17, 18]
    ∧ splitByHeads ([[true, true, true], [false, false],
          [true, false, true, true]]).flatten
        (([[true, true, true], [false, false], [true, false, true, true]]).map
          List.length)
        = [[true, true, true], [false, false], [true, false, true, true]]) :=
  ⟨by decide, C3_flatten_split_round_trip _ _ (by decide)⟩

/-- C2 (as stated, refuted): the claim's exact error line
`{"error": "Unknown model: iron_agility. Available: [bronze_agility]"}` is
not what the server writes for catalog `[bronze_agility]` and request model
`iron_agility` — Python formats `list(dict.keys())` with `repr` quotes, so
the written line has `[\x27bronze_agility\x27]`. -/
theorem C2_exact_error_line_counterexample :
    handleLine netW extW srvBronze lineIron
      = "\x7b\"error\": \"Unknown model: iron_agility. Available: [\x27bronze_agility\x27]\"\x7d"
    ∧ handleLine netW extW srvBronze lineIron
      ≠ "\x7b\"error\": \"Unknown model: iron_agility. Available: [bronze_agility]\"\x7d" := by
  constructor <;> decide

/-- C2 (amended): a request naming a model absent from the catalog produces
the error `Unknown model: <name>. Available: <names>` where `<names>` is the
Python `str` of the catalog's key list — the names in catalog insertion
order, each in single-quote `repr` form (so for catalog
`[bronze_agility]` and model `iron_agility` the message reads
`Unknown model: iron_agility. Available: [\x27bronze_agility\x27]`). -/
theorem C2_unknown_model_message_amended (net : PolicyNet) (ext : ExtensionNet)
    (srv : Server) (req : InferenceRequest)
    (h : lookupAssoc srv.models req.model = none) :
    processRequest net ext srv req
      = Except.error (unknownModelMsg req.model (srv.models.map Prod.fst))
    ∧ unknownModelMsg "iron_agility" ["bronze_agility"]
      = "Unknown model: iron_agility. Available: [\x27bronze_agility\x27]" := by
  refine ⟨?_, by decide⟩
  simp [processRequest, h]

/-- C2 witness: the amended theorem applied to the one-model catalog and the
`iron_agility` request. -/
theorem C2_unknown_model_message_amended_witness :
    lookupAssoc srvBronze.models reqIron.model = none
    ∧ (processRequest netW extW srvBronze reqIron
        = Except.error (unknownModelMsg reqIron.model (srvBronze.models.map Prod.fst))
    ∧ unknownModelMsg "iron_agility" ["bronze_agility"]
        = "Unknown model: iron_agility. Available: [\x27bronze_agility\x27]") :=
  ⟨by decide, C2_unknown_model_message_amended netW extW srvBronze reqIron (by decide)⟩

/-- C4: one inbound line failing at request level produces exactly one error
line and the loop returns to reading — a later valid request on the same
connection still gets exactly one response line — and in general the handler
writes exactly one line per inbound line. -/
theorem C4_error_line_recovery (net : PolicyNet) (ext : ExtensionNet)
    (srv : Server) (pre post : List Line) (bad good : Line) (emsg : String)
    (resp : InferenceResponse)
    (hb : requestOutcome net ext srv bad = Except.error emsg)
    (hg : requestOutcome net ext srv good = Except.ok resp) :
    handleClient net ext srv (pre ++ bad :: good :: post)
      = handleClient net ext srv pre
        ++ errorLine emsg :: responseLine resp :: handleClient net ext srv post
    ∧ ∀ ls : List Line, (handleClient net ext srv ls).length = ls.length := by
  constructor
  · simp [handleClient, handleLine, hb, hg]
  · intro ls; simp [handleClient]

/-- C4 witness: a malformed line followed by a valid request yields exactly
one error line then one response line on the same open connection. -/
theorem C4_error_line_recovery_witness :
    requestOutcome netW extW srvBronze lineBadW
      = Except.error "Expecting value: line 1 column 1 (char 0)"
    ∧ requestOutcome netW extW srvBronze lineGoodW = Except.ok respW
    ∧ (handleClient netW extW srvBronze ([] ++ lineBadW :: lineGoodW :: [])
        = handleClient netW extW srvBronze []
          ++ errorLine "Expecting value: line 1 column 1 (char 0)"
            :: responseLine respW :: handleClient netW extW srvBronze []
    ∧ ∀ ls : List Line, (handleClient netW extW srvBronze ls).length = ls.length) :=
  ⟨rfl, rfl,
    C4_error_line_recovery netW extW srvBronze [] [] lineBadW lineGoodW _ _
      rfl rfl⟩

/-- C7: for a valid request the response carries each optional output
exactly when its flag is set; with all four flags false all four are null,
and `extensionResults` is empty when `extensions` is empty. -/
theorem C7_optional_field_suppression (net : PolicyNet) (ext : ExtensionNet)
    (srv : Server) (req : InferenceRequest) (path : String)
    (h : lookupAssoc srv.models req.model = some path) :
    ∃ resp, processRequest net ext srv req = Except.ok resp
      ∧ resp.logProb.isSome = req.returnLogProb
      ∧ resp.entropy.isSome = req.returnEntropy
      ∧ resp.values.isSome = req.returnValue
      ∧ resp.probs.isSome = req.returnProbs
      ∧ resp.extensionResults.length = req.extensions.length
      ∧ (req.extensions = [] → resp.extensionResults = []) := by
  simp only [processRequest, h]
  refine ⟨_, rfl, ?_, ?_, ?_, ?_, ?_, ?_⟩ <;>
    simp only [ppoPredict] <;>
    cases hp : req.returnProbs <;>
    cases hl : req.returnLogProb <;>
    cases he : req.returnEntropy <;>
    cases hv : req.returnValue <;>
    simp [hp, hl, he, hv]

/-- C7 witness: the all-flags-false request `goodReq` against the
one-model catalog. -/
theorem C7_optional_field_suppression_witness :
    lookupAssoc srvBronze.models goodReq.model = some "models/bronze_agility.zip"
    ∧ ∃ resp, processRequest netW extW srvBronze goodReq = Except.ok resp
      ∧ resp.logProb.isSome = goodReq.returnLogProb
      ∧ resp.entropy.isSome = goodReq.returnEntropy
      ∧ resp.values.isSome = goodReq.returnValue
      ∧ resp.probs.isSome = goodReq.returnProbs
      ∧ resp.extensionResults.length = goodReq.extensions.length
      ∧ (goodReq.extensions = [] → resp.extensionResults = []) :=
  ⟨by decide,
    C7_optional_field_suppression netW extW srvBronze goodReq
      "models/bronze_agility.zip" (by decide)⟩

/-- C8: a failing load raises the load error, leaves the loaded-models map
unchanged (the location stays absent), and a second resolve call for the
same location attempts the load again — the failure is not cached. -/
theorem C8_load_failure_retry (loadFn : String → Except String Nat)
    (st : CacheState) (p : String) (e : String)
    (h0 : st.models p = none) (hf : loadFn p = Except.error e) :
    (loadModelSeq loadFn st p).1 = Except.error e
    ∧ (loadModelSeq loadFn st p).2.models = st.models
    ∧ (loadModelSeq loadFn st p).2.loadCount p = st.loadCount p + 1
    ∧ (loadModelSeq loadFn (loadModelSeq loadFn st p).2 p).1 = Except.error e
    ∧ (loadModelSeq loadFn (loadModelSeq loadFn st p).2 p).2.loadCount p
        = st.loadCount p + 2 := by
  simp [loadModelSeq, h0, hf]

/-- C8 witness: loading a path absent from the filesystem fails, leaves the
cache empty, and is retried by the next call. -/
theorem C8_load_failure_retry_witness :
    cacheEmpty.models "models/bronze_agility.zip" = none
    ∧ ppoLoad fsNone "models/bronze_agility.zip"
        = Except.error "models/bronze_agility.zip not found"
    ∧ ((loadModelSeq (ppoLoad fsNone) cacheEmpty "models/bronze_agility.zip").1
        = Except.error "models/bronze_agility.zip not found"
    ∧ (loadModelSeq (ppoLoad fsNone) cacheEmpty "models/bronze_agility.zip").2.models
        = cacheEmpty.models
    ∧ (loadModelSeq (ppoLoad fsNone) cacheEmpty "models/bronze_agility.zip").2.loadCount
        "models/bronze_agility.zip" = cacheEmpty.loadCount "models/bronze_agility.zip" + 1
    ∧ (loadModelSeq (ppoLoad fsNone)
        (loadModelSeq (ppoLoad fsNone) cacheEmpty "models/bronze_agility.zip").2
        "models/bronze_agility.zip").1
        = Except.error "models/bronze_agility.zip not found"
    ∧ (loadModelSeq (ppoLoad fsNone)
        (loadModelSeq (ppoLoad fsNone) cacheEmpty "models/bronze_agility.zip").2
        "models/bronze_agility.zip").2.loadCount "models/bronze_agility.zip"
        = cacheEmpty.loadCount "models/bronze_agility.zip" + 2) :=
  ⟨rfl, rfl,
    C8_load_failure_retry (ppoLoad fsNone) cacheEmpty "models/bronze_agility.zip"
      "models/bronze_agility.zip not found" rfl rfl⟩

/-- C9: a JSON object line with all required fields but an extra key outside
the nine declared dataclass fields fails to decode (the frozen dataclass
constructor rejects the unexpected keyword) and the handler writes an error
line. -/
theorem C9_unknown_field_rejected (net : PolicyNet) (ext : ExtensionNet)
    (srv : Server) (keys : List String) (req : InferenceRequest) (k : String)
    (hreq : requiredFields.all (fun r => keys.contains r) = true)
    (hk : k ∈ keys) (hnd : declaredFields.contains k = false) :
    ∃ e, decodeLine (Line.obj keys req) = Except.error e
      ∧ handleLine net ext srv (Line.obj keys req) = errorLine e := by
  have hsome : (keys.find? (fun k' => !(declaredFields.contains k'))).isSome := by
    rw [List.find?_isSome]
    exact ⟨k, hk, by simpa using hnd⟩
  obtain ⟨k', hk'⟩ := Option.isSome_iff_exists.mp hsome
  refine ⟨unexpectedKwMsg k', ?_, ?_⟩
  · simp only [decodeLine]
    rw [hk']
  · simp only [handleLine, requestOutcome, decodeLine]
    rw [hk']
    rfl

/-- C9 witness: the key set `model, actionMasks, obs, bogus` is rejected. -/
theorem C9_unknown_field_rejected_witness :
    requiredFields.all
        (fun r => (["model", "actionMasks", "obs", "bogus"]).contains r) = true
    ∧ "bogus" ∈ ["model", "actionMasks", "obs", "bogus"]
    ∧ declaredFields.contains "bogus" = false
    ∧ ∃ e, decodeLine (Line.obj ["model", "actionMasks", "obs", "bogus"] reqIron)
        = Except.error e
      ∧ handleLine netW extW srvBronze
          (Line.obj ["model", "actionMasks", "obs", "bogus"] reqIron)
        = errorLine e :=
  ⟨by decide, by decide, by decide,
    C9_unknown_field_rejected netW extW srvBronze
      ["model", "actionMasks", "obs", "bogus"] reqIron "bogus"
      (by decide) (by decide) (by decide)⟩

/-- C10: with a missing models directory the server is constructed with an
empty catalog, startup issues no preloads, and every request fails
per-request with the unknown-model error listing an empty catalog. -/
theorem C10_missing_models_dir (dir : String) (files : List String)
    (ps : Nat) (net : PolicyNet) (ext : ExtensionNet) (req : InferenceRequest) :
    (initServer dir files false ps).models = []
    ∧ startupPreloads (initServer dir files false ps) = []
    ∧ processRequest net ext (initServer dir files false ps) req
        = Except.error (unknownModelMsg req.model [])
    ∧ pyStrListRepr [] = "[]" := by
  refine ⟨rfl, rfl, ?_, by decide⟩
  simp [processRequest, initServer, lookupAssoc]

/-! ## Lemmas: catalog scan -/

theorem lastDotIdx_append_zip (xs : List Char) :
    lastDotIdx (xs ++ ['.', 'z', 'i', 'p']) = some xs.length := by
  induction xs with
  | nil => rfl
  | cons c cs ih => simp [lastDotIdx, ih]

theorem scanModels_eq_filter_map (dir : String) (files : List String) :
    scanModels dir files
      = (files.filter fun g => pyEndsWith g ".zip").map
          (fun g => (pySplitextRoot g, dir ++ "/" ++ g)) := by
  induction files with
  | nil => rfl
  | cons f fs ih =>
    by_cases h : pyEndsWith f ".zip" = true
    · simp [scanModels, List.filterMap_cons, List.filter_cons, h] at ih ⊢
      exact ih
    · simp only [Bool.not_eq_true] at h
      simp [scanModels, List.filterMap_cons, List.filter_cons, h] at ih ⊢
      exact ih

theorem pySplitextRoot_of_endsWith_zip (f : String)
    (h : pyEndsWith f ".zip" = true) :
    pySplitextRoot f
      = if (stripZip f).data.any (fun c => c ≠ '.') then stripZip f else f := by
  have hsuf : ['.', 'z', 'i', 'p'] <:+ f.data := by
    have := (List.isSuffixOf_iff_suffix).mp h
    simpa using this
  obtain ⟨xs, hxs⟩ := hsuf
  have hlen : f.data.length = xs.length + 4 := by
    rw [← hxs]; simp
  have htake : (f.data.take xs.length) = xs := by
    rw [← hxs]
    simpa using List.take_left xs ['.', 'z', 'i', 'p']
  have hstrip : stripZip f = String.mk xs := by
    simp [stripZip, hlen, htake]
  rw [pySplitextRoot, ← hxs, lastDotIdx_append_zip, hxs]
  simp [htake, hstrip]

/-- C6 (as stated, refuted): a directory containing the single file `.zip`
produces the catalog entry keyed `.zip`, not the file name with the
extension removed (which would be the empty string):
`os.path.splitext` treats the leading dot as part of the root. -/
theorem C6_catalog_key_counterexample :
    scanModels "models" [".zip"] = [(".zip", "models/.zip")]
    ∧ stripZip ".zip" = ""
    ∧ scanModels "models" [".zip"] ≠ [(stripZip ".zip", "models/.zip")] := by
  refine ⟨by decide, by decide, by decide⟩

/-- C6 (amended): the catalog contains exactly the `.zip`-suffixed files in
scan order, each keyed by `os.path.splitext`'s root — which is the file name
with `.zip` removed whenever some character before the final `.zip` is not a
dot, and the whole file name otherwise (dotfiles such as `.zip`). -/
theorem C6_catalog_scan_amended (dir : String) (files : List String)
    (f : String) (h : pyEndsWith f ".zip" = true) :
    scanModels dir files
      = (files.filter fun g => pyEndsWith g ".zip").map
          (fun g => (pySplitextRoot g, dir ++ "/" ++ g))
    ∧ pySplitextRoot f
      = if (stripZip f).data.any (fun c => c ≠ '.') then stripZip f else f :=
  ⟨scanModels_eq_filter_map dir files, pySplitextRoot_of_endsWith_zip f h⟩

/-- C6 witness: the amended scan characterization at a directory holding a
regular model file, a non-model file and a dotfile. -/
theorem C6_catalog_scan_amended_witness :
    pyEndsWith "bronze_agility.zip" ".zip" = true
    ∧ (scanModels "models" ["bronze_agility.zip", "notes.txt", ".zip"]
        = ((["bronze_agility.zip", "notes.txt", ".zip"]).filter
            fun g => pyEndsWith g ".zip").map
              (fun g => (pySplitextRoot g, "models" ++ "/" ++ g))
    ∧ pySplitextRoot "bronze_agility.zip"
        = if (stripZip "bronze_agility.zip").data.any (fun c => c ≠ '.')
            then stripZip "bronze_agility.zip" else "bronze_agility.zip") :=
  ⟨by decide,
    C6_catalog_scan_amended "models" ["bronze_agility.zip", "notes.txt", ".zip"]
      "bronze_agility.zip" (by decide)⟩

/-! ## Lemmas: the cache protocol invariant -/

theorem lockPC_not_start : ¬ lockPC PC.start := by simp [lockPC]
theorem lockPC_not_reg : ¬ lockPC PC.reg := by simp [lockPC]
theorem lockPC_not_acq : ¬ lockPC PC.acq := by simp [lockPC]
theorem lockPC_not_cleanup : ¬ lockPC PC.cleanup := by simp [lockPC]
theorem lockPC_not_ret : ¬ lockPC PC.ret := by simp [lockPC]
theorem lockPC_not_done : ¬ lockPC PC.done := by simp [lockPC]

/-- Mutual exclusion: two threads that both hold their per-location lock for
the same not-yet-loaded location are the same thread. -/
theorem locked_excl {K : Nat} {f : Fin K → Nat} {s : Sys K} (hI : Inv f s)
    {t t' : Fin K} (h1 : lockPC (s.ts t).pc) (h2 : lockPC (s.ts t').pc)
    (hp : f t = f t') (hm : s.models (f t) = none) : t = t' := by
  obtain ⟨g, hg, hold⟩ := hI.lockHolder t h1
  obtain ⟨g', hg', hold'⟩ := hI.lockHolder t' h2
  have hs := hI.stale t g hg
  have hs' := hI.stale t' g' hg'
  rw [hm] at hs
  rw [← hp, hm] at hs'
  rcases hs with hr | habs
  · rcases hs' with hr' | habs'
    · rw [hr] at hr'
      have hgg : g = g' := by injection hr'
      rw [← hgg] at hold'
      rw [hold] at hold'
      injection hold'
    · simp at habs'
  · simp at habs

/-- The fresh processor satisfies the invariant. -/
theorem init_inv {K : Nat} (f : Fin K → Nat) : Inv f (initSys K) := by
  refine ⟨?_, ?_, ?_, ?_, ?_, ?_, ?_, ?_, ?_, ?_, ?_⟩
  · intro g t h; exact absurd h (by simp [initSys])
  · intro t hl; exact absurd hl (by simp [initSys, lockPC])
  · intro t g hg; exact absurd hg (by simp [initSys])
  · intro p; simp [initSys]
  · intro p hp; exact absurd hp (by simp [initSys])
  · intro t ht; exact absurd ht (by simp [initSys])
  · intro t ht; exact absurd ht (by simp [initSys])
  · intro p hp; exact absurd hp (by simp [initSys])
  · intro t ht; rcases ht with h | h | h <;> exact absurd h (by simp [initSys])
  · intro t ht; exact absurd ht (by simp [initSys])
  · intro p hp; exact absurd hp (by simp [initSys])

theorem inv_startHit {K : Nat} {f : Fin K → Nat} {s : Sys K} {t : Fin K}
    (hI : Inv f s) (hpc : (s.ts t).pc = PC.start)
    (hm : (s.models (f t)).isSome) :
    Inv f { s with ts := Function.update s.ts t { s.ts t with pc := PC.ret } } := by
  refine ⟨?_, ?_, ?_, hI.countLe, hI.someCount, ?_, ?_, ?_, ?_, ?_, hI.modelsSrc⟩ <;> dsimp only
  · intro g t' h
    by_cases ht : t' = t
    · subst ht
      have h0 := hI.holdGen g t' h
      rw [hpc] at h0
      exact absurd h0.2 lockPC_not_start
    · simp only [Function.update_noteq ht]
      exact hI.holdGen g t' h
  · intro t' hl
    by_cases ht : t' = t
    · subst ht
      rw [Function.update_same] at hl
      exact absurd hl lockPC_not_ret
    · rw [Function.update_noteq ht] at hl ⊢
      exact hI.lockHolder t' hl
  · intro t' g hg
    by_cases ht : t' = t
    · subst ht
      rw [Function.update_same] at hg
      exact hI.stale t' g hg
    · rw [Function.update_noteq ht] at hg
      exact hI.stale t' g hg
  · intro t' ht'
    by_cases ht : t' = t
    · subst ht; rw [Function.update_same] at ht'; exact absurd ht' (by simp)
    · rw [Function.update_noteq ht] at ht'; exact hI.loadPc t' ht'
  · intro t' ht'
    by_cases ht : t' = t
    · subst ht; rw [Function.update_same] at ht'; exact absurd ht' (by simp)
    · rw [Function.update_noteq ht] at ht'; exact hI.installPc t' ht'
  · intro p hp
    rcases hI.countSrc p hp with h | ⟨t'', hf, hin⟩
    · exact Or.inl h
    · refine Or.inr ⟨t'', hf, ?_⟩
      by_cases ht : t'' = t
      · subst ht; rw [hpc] at hin; exact absurd hin (by simp)
      · rw [Function.update_noteq ht]; exact hin
  · intro t' ht'
    by_cases ht : t' = t
    · subst ht; exact hm
    · rw [Function.update_noteq ht] at ht'; exact hI.lateSome t' ht'
  · intro t' ht'
    by_cases ht : t' = t
    · subst ht; rw [Function.update_same] at ht'; exact absurd ht' (by simp)
    · rw [Function.update_noteq ht] at ht' ⊢
      exact hI.doneRes t' ht'

theorem inv_startMiss {K : Nat} {f : Fin K → Nat} {s : Sys K} {t : Fin K}
    (hI : Inv f s) (hpc : (s.ts t).pc = PC.start) :
    Inv f { s with ts := Function.update s.ts t { s.ts t with pc := PC.reg } } := by
  refine ⟨?_, ?_, ?_, hI.countLe, hI.someCount, ?_, ?_, ?_, ?_, ?_, hI.modelsSrc⟩ <;> dsimp only
  · intro g t' h
    by_cases ht : t' = t
    · subst ht
      have h0 := hI.holdGen g t' h
      rw [hpc] at h0
      exact absurd h0.2 lockPC_not_start
    · simp only [Function.update_noteq ht]
      exact hI.holdGen g t' h
  · intro t' hl
    by_cases ht : t' = t
    · subst ht
      rw [Function.update_same] at hl
      exact absurd hl lockPC_not_reg
    · rw [Function.update_noteq ht] at hl ⊢
      exact hI.lockHolder t' hl
  · intro t' g hg
    by_cases ht : t' = t
    · subst ht
      rw [Function.update_same] at hg
      exact hI.stale t' g hg
    · rw [Function.update_noteq ht] at hg
      exact hI.stale t' g hg
  · intro t' ht'
    by_cases ht : t' = t
    · subst ht; rw [Function.update_same] at ht'; exact absurd ht' (by simp)
    · rw [Function.update_noteq ht] at ht'; exact hI.loadPc t' ht'
  · intro t' ht'
    by_cases ht : t' = t
    · subst ht; rw [Function.update_same] at ht'; exact absurd ht' (by simp)
    · rw [Function.update_noteq ht] at ht'; exact hI.installPc t' ht'
  · intro p hp
    rcases hI.countSrc p hp with h | ⟨t'', hf, hin⟩
    · exact Or.inl h
    · refine Or.inr ⟨t'', hf, ?_⟩
      by_cases ht : t'' = t
      · subst ht; rw [hpc] at hin; exact absurd hin (by simp)
      · rw [Function.update_noteq ht]; exact hin
  · intro t' ht'
    by_cases ht : t' = t
    · subst ht; rw [Function.update_same] at ht'
      rcases ht' with h | h | h <;> exact absurd h (by simp)
    · rw [Function.update_noteq ht] at ht'; exact hI.lateSome t' ht'
  · intro t' ht'
    by_cases ht : t' = t
    · subst ht; rw [Function.update_same] at ht'; exact absurd ht' (by simp)
    · rw [Function.update_noteq ht] at ht' ⊢
      exact hI.doneRes t' ht'

theorem inv_regOld {K : Nat} {f : Fin K → Nat} {s : Sys K} {t : Fin K} {g0 : Nat}
    (hI : Inv f s) (hpc : (s.ts t).pc = PC.reg)
    (hr : s.registry (f t) = some g0) :
    Inv f { s with
      ts := Function.update s.ts t { s.ts t with pc := PC.acq, gen := some g0 } } := by
  refine ⟨?_, ?_, ?_, hI.countLe, hI.someCount, ?_, ?_, ?_, ?_, ?_, hI.modelsSrc⟩ <;>
    dsimp only
  · intro g t' h
    by_cases ht : t' = t
    · subst ht
      have h0 := hI.holdGen g t' h
      rw [hpc] at h0
      exact absurd h0.2 lockPC_not_reg
    · simp only [Function.update_noteq ht]
      exact hI.holdGen g t' h
  · intro t' hl
    by_cases ht : t' = t
    · subst ht
      rw [Function.update_same] at hl
      exact absurd hl lockPC_not_acq
    · rw [Function.update_noteq ht] at hl ⊢
      exact hI.lockHolder t' hl
  · intro t' g hg
    by_cases ht : t' = t
    · subst ht
      rw [Function.update_same] at hg
      dsimp only at hg
      have hgg : g0 = g := by injection hg
      rw [← hgg]
      exact Or.inl hr
    · rw [Function.update_noteq ht] at hg
      exact hI.stale t' g hg
  · intro t' ht'
    by_cases ht : t' = t
    · subst ht; rw [Function.update_same] at ht'; exact absurd ht' (by simp)
    · rw [Function.update_noteq ht] at ht'; exact hI.loadPc t' ht'
  · intro t' ht'
    by_cases ht : t' = t
    · subst ht; rw [Function.update_same] at ht'; exact absurd ht' (by simp)
    · rw [Function.update_noteq ht] at ht'; exact hI.installPc t' ht'
  · intro p hp
    rcases hI.countSrc p hp with h | ⟨t'', hf, hin⟩
    · exact Or.inl h
    · refine Or.inr ⟨t'', hf, ?_⟩
      by_cases ht : t'' = t
      · subst ht; rw [hpc] at hin; exact absurd hin (by simp)
      · rw [Function.update_noteq ht]; exact hin
  · intro t' ht'
    by_cases ht : t' = t
    · subst ht; rw [Function.update_same] at ht'
      rcases ht' with h | h | h <;> exact absurd h (by simp)
    · rw [Function.update_noteq ht] at ht'; exact hI.lateSome t' ht'
  · intro t' ht'
    by_cases ht : t' = t
    · subst ht; rw [Function.update_same] at ht'; exact absurd ht' (by simp)
    · rw [Function.update_noteq ht] at ht' ⊢
      exact hI.doneRes t' ht'

theorem inv_regNew {K : Nat} {f : Fin K → Nat} {s : Sys K} {t : Fin K}
    (hI : Inv f s) (hpc : (s.ts t).pc = PC.reg)
    (hr : s.registry (f t) = none) :
    Inv f { s with
      registry := Function.update s.registry (f t) (some s.nextGen)
      nextGen := s.nextGen + 1
      ts := Function.update s.ts t
        { s.ts t with pc := PC.acq, gen := some s.nextGen } } := by
  refine ⟨?_, ?_, ?_, hI.countLe, hI.someCount, ?_, ?_, ?_, ?_, ?_, hI.modelsSrc⟩ <;>
    dsimp only
  · intro g t' h
    by_cases ht : t' = t
    · subst ht
      have h0 := hI.holdGen g t' h
      rw [hpc] at h0
      exact absurd h0.2 lockPC_not_reg
    · simp only [Function.update_noteq ht]
      exact hI.holdGen g t' h
  · intro t' hl
    by_cases ht : t' = t
    · subst ht
      rw [Function.update_same] at hl
      exact absurd hl lockPC_not_acq
    · rw [Function.update_noteq ht] at hl ⊢
      exact hI.lockHolder t' hl
  · intro t' g hg
    by_cases ht : t' = t
    · subst ht
      rw [Function.update_same] at hg
      dsimp only at hg
      have hgg : s.nextGen = g := by injection hg
      rw [← hgg, Function.update_same]
      exact Or.inl rfl
    · rw [Function.update_noteq ht] at hg
      rcases hI.stale t' g hg with hreg | hsome
      · by_cases hf : f t' = f t
        · rw [hf, hr] at hreg
          exact absurd hreg (by simp)
        · rw [Function.update_noteq hf]
          exact Or.inl hreg
      · exact Or.inr hsome
  · intro t' ht'
    by_cases ht : t' = t
    · subst ht; rw [Function.update_same] at ht'; exact absurd ht' (by simp)
    · rw [Function.update_noteq ht] at ht'; exact hI.loadPc t' ht'
  · intro t' ht'
    by_cases ht : t' = t
    · subst ht; rw [Function.update_same] at ht'; exact absurd ht' (by simp)
    · rw [Function.update_noteq ht] at ht'; exact hI.installPc t' ht'
  · intro p hp
    rcases hI.countSrc p hp with h | ⟨t'', hf, hin⟩
    · exact Or.inl h
    · refine Or.inr ⟨t'', hf, ?_⟩
      by_cases ht : t'' = t
      · subst ht; rw [hpc] at hin; exact absurd hin (by simp)
      · rw [Function.update_noteq ht]; exact hin
  · intro t' ht'
    by_cases ht : t' = t
    · subst ht; rw [Function.update_same] at ht'
      rcases ht' with h | h | h <;> exact absurd h (by simp)
    · rw [Function.update_noteq ht] at ht'; exact hI.lateSome t' ht'
  · intro t' ht'
    by_cases ht : t' = t
    · subst ht; rw [Function.update_same] at ht'; exact absurd ht' (by simp)
    · rw [Function.update_noteq ht] at ht' ⊢
      exact hI.doneRes t' ht'

theorem inv_acquire {K : Nat} {f : Fin K → Nat} {s : Sys K} {t : Fin K} {g0 : Nat}
    (hI : Inv f s) (hpc : (s.ts t).pc = PC.acq)
    (hg0 : (s.ts t).gen = some g0) (hh : s.holder g0 = none) :
    Inv f { s with
      holder := Function.update s.holder g0 (some t)
      ts := Function.update s.ts t { s.ts t with pc := PC.chk } } := by
  refine ⟨?_, ?_, ?_, hI.countLe, hI.someCount, ?_, ?_, ?_, ?_, ?_, hI.modelsSrc⟩ <;>
    dsimp only
  · intro g t' h
    by_cases hgg : g = g0
    · subst hgg
      rw [Function.update_same] at h
      have htt : t = t' := by injection h
      subst htt
      rw [Function.update_same]
      exact ⟨hg0, Or.inl rfl⟩
    · rw [Function.update_noteq hgg] at h
      have h0 := hI.holdGen g t' h
      by_cases ht : t' = t
      · subst ht
        rw [hpc] at h0
        exact absurd h0.2 lockPC_not_acq
      · rw [Function.update_noteq ht]
        exact h0
  · intro t' hl
    by_cases ht : t' = t
    · subst ht
      rw [Function.update_same]
      exact ⟨g0, hg0, by rw [Function.update_same]⟩
    · rw [Function.update_noteq ht] at hl ⊢
      obtain ⟨g, hgen, hold⟩ := hI.lockHolder t' hl
      refine ⟨g, hgen, ?_⟩
      by_cases hgg : g = g0
      · subst hgg
        rw [hh] at hold
        exact absurd hold (by simp)
      · rw [Function.update_noteq hgg]
        exact hold
  · intro t' g hg
    by_cases ht : t' = t
    · subst ht
      rw [Function.update_same] at hg
      exact hI.stale t' g hg
    · rw [Function.update_noteq ht] at hg
      exact hI.stale t' g hg
  · intro t' ht'
    by_cases ht : t' = t
    · subst ht; rw [Function.update_same] at ht'; exact absurd ht' (by simp)
    · rw [Function.update_noteq ht] at ht'; exact hI.loadPc t' ht'
  · intro t' ht'
    by_cases ht : t' = t
    · subst ht; rw [Function.update_same] at ht'; exact absurd ht' (by simp)
    · rw [Function.update_noteq ht] at ht'; exact hI.installPc t' ht'
  · intro p hp
    rcases hI.countSrc p hp with h | ⟨t'', hf, hin⟩
    · exact Or.inl h
    · refine Or.inr ⟨t'', hf, ?_⟩
      by_cases ht : t'' = t
      · subst ht; rw [hpc] at hin; exact absurd hin (by simp)
      · rw [Function.update_noteq ht]; exact hin
  · intro t' ht'
    by_cases ht : t' = t
    · subst ht; rw [Function.update_same] at ht'
      rcases ht' with h | h | h <;> exact absurd h (by simp)
    · rw [Function.update_noteq ht] at ht'; exact hI.lateSome t' ht'
  · intro t' ht'
    by_cases ht : t' = t
    · subst ht; rw [Function.update_same] at ht'; exact absurd ht' (by simp)
    · rw [Function.update_noteq ht] at ht' ⊢
      exact hI.doneRes t' ht'

theorem inv_chkHit {K : Nat} {f : Fin K → Nat} {s : Sys K} {t : Fin K}
    (hI : Inv f s) (hpc : (s.ts t).pc = PC.chk)
    (hm : (s.models (f t)).isSome) :
    Inv f { s with ts := Function.update s.ts t { s.ts t with pc := PC.rel } } := by
  refine ⟨?_, ?_, ?_, hI.countLe, hI.someCount, ?_, ?_, ?_, ?_, ?_, hI.modelsSrc⟩ <;>
    dsimp only
  · intro g t' h
    have h0 := hI.holdGen g t' h
    by_cases ht : t' = t
    · subst ht
      rw [Function.update_same]
      exact ⟨h0.1, Or.inr (Or.inr (Or.inr rfl))⟩
    · rw [Function.update_noteq ht]
      exact h0
  · intro t' hl
    by_cases ht : t' = t
    · subst ht
      rw [Function.update_same]
      exact hI.lockHolder t' (by rw [hpc]; exact Or.inl rfl)
    · rw [Function.update_noteq ht] at hl ⊢
      exact hI.lockHolder t' hl
  · intro t' g hg
    by_cases ht : t' = t
    · subst ht
      rw [Function.update_same] at hg
      exact hI.stale t' g hg
    · rw [Function.update_noteq ht] at hg
      exact hI.stale t' g hg
  · intro t' ht'
    by_cases ht : t' = t
    · subst ht; rw [Function.update_same] at ht'; exact absurd ht' (by simp)
    · rw [Function.update_noteq ht] at ht'; exact hI.loadPc t' ht'
  · intro t' ht'
    by_cases ht : t' = t
    · subst ht; rw [Function.update_same] at ht'; exact absurd ht' (by simp)
    · rw [Function.update_noteq ht] at ht'; exact hI.installPc t' ht'
  · intro p hp
    rcases hI.countSrc p hp with h | ⟨t'', hf, hin⟩
    · exact Or.inl h
    · refine Or.inr ⟨t'', hf, ?_⟩
      by_cases ht : t'' = t
      · subst ht; rw [hpc] at hin; exact absurd hin (by simp)
      · rw [Function.update_noteq ht]; exact hin
  · intro t' ht'
    by_cases ht : t' = t
    · subst ht; exact hm
    · rw [Function.update_noteq ht] at ht'; exact hI.lateSome t' ht'
  · intro t' ht'
    by_cases ht : t' = t
    · subst ht; rw [Function.update_same] at ht'; exact absurd ht' (by simp)
    · rw [Function.update_noteq ht] at ht' ⊢
      exact hI.doneRes t' ht'

theorem inv_chkMiss {K : Nat} {f : Fin K → Nat} {s : Sys K} {t : Fin K}
    (hI : Inv f s) (hpc : (s.ts t).pc = PC.chk)
    (hm : s.models (f t) = none) :
    Inv f { s with ts := Function.update s.ts t { s.ts t with pc := PC.load } } := by
  have hcount0 : s.loadCount (f t) = 0 := by
    rcases Nat.eq_zero_or_pos (s.loadCount (f t)) with h0 | hpos
    · exact h0
    · exfalso
      rcases hI.countSrc _ hpos with hsome | ⟨t'', hf'', hin⟩
      · rw [hm] at hsome; simp at hsome
      · have heq : t = t'' :=
          locked_excl hI (by rw [hpc]; exact Or.inl rfl)
            (by rw [hin]; exact Or.inr (Or.inr (Or.inl rfl))) hf''.symm hm
        rw [← heq, hpc] at hin
        simp at hin
  refine ⟨?_, ?_, ?_, hI.countLe, hI.someCount, ?_, ?_, ?_, ?_, ?_, hI.modelsSrc⟩ <;>
    dsimp only
  · intro g t' h
    have h0 := hI.holdGen g t' h
    by_cases ht : t' = t
    · subst ht
      rw [Function.update_same]
      exact ⟨h0.1, Or.inr (Or.inl rfl)⟩
    · rw [Function.update_noteq ht]
      exact h0
  · intro t' hl
    by_cases ht : t' = t
    · subst ht
      rw [Function.update_same]
      exact hI.lockHolder t' (by rw [hpc]; exact Or.inl rfl)
    · rw [Function.update_noteq ht] at hl ⊢
      exact hI.lockHolder t' hl
  · intro t' g hg
    by_cases ht : t' = t
    · subst ht
      rw [Function.update_same] at hg
      exact hI.stale t' g hg
    · rw [Function.update_noteq ht] at hg
      exact hI.stale t' g hg
  · intro t' ht'
    by_cases ht : t' = t
    · subst ht
      exact ⟨hm, hcount0⟩
    · rw [Function.update_noteq ht] at ht'; exact hI.loadPc t' ht'
  · intro t' ht'
    by_cases ht : t' = t
    · subst ht; rw [Function.update_same] at ht'; exact absurd ht' (by simp)
    · rw [Function.update_noteq ht] at ht'; exact hI.installPc t' ht'
  · intro p hp
    rcases hI.countSrc p hp with h | ⟨t'', hf, hin⟩
    · exact Or.inl h
    · refine Or.inr ⟨t'', hf, ?_⟩
      by_cases ht : t'' = t
      · subst ht; rw [hpc] at hin; exact absurd hin (by simp)
      · rw [Function.update_noteq ht]; exact hin
  · intro t' ht'
    by_cases ht : t' = t
    · subst ht; rw [Function.update_same] at ht'
      rcases ht' with h | h | h <;> exact absurd h (by simp)
    · rw [Function.update_noteq ht] at ht'; exact hI.lateSome t' ht'
  · intro t' ht'
    by_cases ht : t' = t
    · subst ht; rw [Function.update_same] at ht'; exact absurd ht' (by simp)
    · rw [Function.update_noteq ht] at ht' ⊢
      exact hI.doneRes t' ht'

theorem inv_doLoad {K : Nat} {f : Fin K → Nat} {s : Sys K} {t : Fin K}
    (hI : Inv f s) (hpc : (s.ts t).pc = PC.load) :
    Inv f { s with
      loadCount := Function.update s.loadCount (f t) (s.loadCount (f t) + 1)
      ts := Function.update s.ts t { s.ts t with pc := PC.install } } := by
  obtain ⟨hm0, hc0⟩ := hI.loadPc t hpc
  refine ⟨?_, ?_, ?_, ?_, ?_, ?_, ?_, ?_, ?_, ?_, hI.modelsSrc⟩ <;> dsimp only
  · intro g t' h
    have h0 := hI.holdGen g t' h
    by_cases ht : t' = t
    · subst ht
      rw [Function.update_same]
      exact ⟨h0.1, Or.inr (Or.inr (Or.inl rfl))⟩
    · rw [Function.update_noteq ht]
      exact h0
  · intro t' hl
    by_cases ht : t' = t
    · subst ht
      rw [Function.update_same]
      exact hI.lockHolder t' (by rw [hpc]; exact Or.inr (Or.inl rfl))
    · rw [Function.update_noteq ht] at hl ⊢
      exact hI.lockHolder t' hl
  · intro t' g hg
    by_cases ht : t' = t
    · subst ht
      rw [Function.update_same] at hg
      exact hI.stale t' g hg
    · rw [Function.update_noteq ht] at hg
      exact hI.stale t' g hg
  · intro p
    by_cases hp : p = f t
    · subst hp
      rw [Function.update_same, hc0]
    · rw [Function.update_noteq hp]
      exact hI.countLe p
  · intro p hsome
    by_cases hp : p = f t
    · subst hp
      rw [hm0] at hsome
      simp at hsome
    · rw [Function.update_noteq hp]
      exact hI.someCount p hsome
  · intro t' ht'
    by_cases ht : t' = t
    · subst ht; rw [Function.update_same] at ht'; exact absurd ht' (by simp)
    · rw [Function.update_noteq ht] at ht'
      obtain ⟨hm', hc'⟩ := hI.loadPc t' ht'
      by_cases hf : f t' = f t
      · exfalso
        have heq : t = t' :=
          locked_excl hI (by rw [hpc]; exact Or.inr (Or.inl rfl))
            (by rw [ht']; exact Or.inr (Or.inl rfl)) hf.symm hm0
        exact ht heq.symm
      · rw [Function.update_noteq hf]
        exact ⟨hm', hc'⟩
  · intro t' ht'
    by_cases ht : t' = t
    · subst ht
      rw [Function.update_same, hc0]
      exact ⟨hm0, rfl⟩
    · rw [Function.update_noteq ht] at ht'
      obtain ⟨hm', hc'⟩ := hI.installPc t' ht'
      by_cases hf : f t' = f t
      · exfalso
        have heq : t = t' :=
          locked_excl hI (by rw [hpc]; exact Or.inr (Or.inl rfl))
            (by rw [ht']; exact Or.inr (Or.inr (Or.inl rfl))) hf.symm hm0
        exact ht heq.symm
      · rw [Function.update_noteq hf]
        exact ⟨hm', hc'⟩
  · intro p hp1
    by_cases hp : p = f t
    · subst hp
      exact Or.inr ⟨t, rfl, by rw [Function.update_same]⟩
    · rw [Function.update_noteq hp] at hp1
      rcases hI.countSrc p hp1 with h | ⟨t'', hf, hin⟩
      · exact Or.inl h
      · refine Or.inr ⟨t'', hf, ?_⟩
        by_cases ht : t'' = t
        · subst ht; exact absurd hf.symm hp
        · rw [Function.update_noteq ht]; exact hin
  · intro t' ht'
    by_cases ht : t' = t
    · subst ht; rw [Function.update_same] at ht'
      rcases ht' with h | h | h <;> exact absurd h (by simp)
    · rw [Function.update_noteq ht] at ht'; exact hI.lateSome t' ht'
  · intro t' ht'
    by_cases ht : t' = t
    · subst ht; rw [Function.update_same] at ht'; exact absurd ht' (by simp)
    · rw [Function.update_noteq ht] at ht' ⊢
      exact hI.doneRes t' ht'

theorem inv_doInstall {K : Nat} {f : Fin K → Nat} {s : Sys K} {t : Fin K}
    (hI : Inv f s) (hpc : (s.ts t).pc = PC.install) :
    Inv f { s with
      models := Function.update s.models (f t) (some t.val)
      ts := Function.update s.ts t { s.ts t with pc := PC.rel } } := by
  obtain ⟨hm0, hc1⟩ := hI.installPc t hpc
  refine ⟨?_, ?_, ?_, hI.countLe, ?_, ?_, ?_, ?_, ?_, ?_, ?_⟩ <;> dsimp only
  · intro g t' h
    have h0 := hI.holdGen g t' h
    by_cases ht : t' = t
    · subst ht
      rw [Function.update_same]
      exact ⟨h0.1, Or.inr (Or.inr (Or.inr rfl))⟩
    · rw [Function.update_noteq ht]
      exact h0
  · intro t' hl
    by_cases ht : t' = t
    · subst ht
      rw [Function.update_same]
      exact hI.lockHolder t' (by rw [hpc]; exact Or.inr (Or.inr (Or.inl rfl)))
    · rw [Function.update_noteq ht] at hl ⊢
      exact hI.lockHolder t' hl
  · intro t' g hg
    have hg' : (s.ts t').gen = some g := by
      by_cases ht : t' = t
      · subst ht; rw [Function.update_same] at hg; exact hg
      · rw [Function.update_noteq ht] at hg; exact hg
    rcases hI.stale t' g hg' with hreg | hsome
    · exact Or.inl hreg
    · refine Or.inr ?_
      by_cases hf : f t' = f t
      · rw [hf, Function.update_same]; rfl
      · rw [Function.update_noteq hf]; exact hsome
  · intro p hsome
    by_cases hp : p = f t
    · subst hp; exact hc1
    · rw [Function.update_noteq hp] at hsome
      exact hI.someCount p hsome
  · intro t' ht'
    by_cases ht : t' = t
    · subst ht; rw [Function.update_same] at ht'; exact absurd ht' (by simp)
    · rw [Function.update_noteq ht] at ht'
      obtain ⟨hm', hc'⟩ := hI.loadPc t' ht'
      by_cases hf : f t' = f t
      · exfalso
        have heq : t' = t :=
          locked_excl hI (by rw [ht']; exact Or.inr (Or.inl rfl))
            (by rw [hpc]; exact Or.inr (Or.inr (Or.inl rfl))) hf hm'
        exact ht heq
      · rw [Function.update_noteq hf]
        exact ⟨hm', hc'⟩
  · intro t' ht'
    by_cases ht : t' = t
    · subst ht; rw [Function.update_same] at ht'; exact absurd ht' (by simp)
    · rw [Function.update_noteq ht] at ht'
      obtain ⟨hm', hc'⟩ := hI.installPc t' ht'
      by_cases hf : f t' = f t
      · exfalso
        have heq : t' = t :=
          locked_excl hI (by rw [ht']; exact Or.inr (Or.inr (Or.inl rfl)))
            (by rw [hpc]; exact Or.inr (Or.inr (Or.inl rfl))) hf hm'
        exact ht heq
      · rw [Function.update_noteq hf]
        exact ⟨hm', hc'⟩
  · intro p hp1
    by_cases hp : p = f t
    · subst hp
      rw [Function.update_same]
      exact Or.inl rfl
    · rcases hI.countSrc p hp1 with h | ⟨t'', hf, hin⟩
      · rw [Function.update_noteq hp]
        exact Or.inl h
      · refine Or.inr ⟨t'', hf, ?_⟩
        by_cases ht : t'' = t
        · subst ht; exact absurd hf.symm hp
        · rw [Function.update_noteq ht]; exact hin
  · intro t' ht'
    by_cases ht : t' = t
    · subst ht
      rw [Function.update_same]
      rfl
    · rw [Function.update_noteq ht] at ht'
      have hsome := hI.lateSome t' ht'
      by_cases hf : f t' = f t
      · rw [hf, Function.update_same]; rfl
      · rw [Function.update_noteq hf]; exact hsome
  · intro t' ht'
    by_cases ht : t' = t
    · subst ht; rw [Function.update_same] at ht'; exact absurd ht' (by simp)
    · rw [Function.update_noteq ht] at ht' ⊢
      obtain ⟨hres, hsome'⟩ := hI.doneRes t' ht'
      by_cases hf : f t' = f t
      · rw [hf, hm0] at hsome'
        simp at hsome'
      · rw [Function.update_noteq hf]
        exact ⟨hres, hsome'⟩
  · intro p hsome
    by_cases hp : p = f t
    · exact ⟨t, hp.symm⟩
    · rw [Function.update_noteq hp] at hsome
      exact hI.modelsSrc p hsome

theorem inv_release {K : Nat} {f : Fin K → Nat} {s : Sys K} {t : Fin K} {g0 : Nat}
    (hI : Inv f s) (hpc : (s.ts t).pc = PC.rel)
    (hg0 : (s.ts t).gen = some g0) :
    Inv f { s with
      holder := Function.update s.holder g0 none
      ts := Function.update s.ts t { s.ts t with pc := PC.cleanup } } := by
  have hold0 : s.holder g0 = some t := by
    obtain ⟨g, hgen, hold⟩ :=
      hI.lockHolder t (by rw [hpc]; exact Or.inr (Or.inr (Or.inr rfl)))
    rw [hg0] at hgen
    have : g0 = g := by injection hgen
    rw [this]
    exact hold
  refine ⟨?_, ?_, ?_, hI.countLe, hI.someCount, ?_, ?_, ?_, ?_, ?_, hI.modelsSrc⟩ <;>
    dsimp only
  · intro g t' h
    by_cases hgg : g = g0
    · subst hgg
      rw [Function.update_same] at h
      exact absurd h (by simp)
    · rw [Function.update_noteq hgg] at h
      have h0 := hI.holdGen g t' h
      by_cases ht : t' = t
      · subst ht
        rw [hg0] at h0
        have : g0 = g := by injection h0.1
        exact absurd this.symm hgg
      · rw [Function.update_noteq ht]
        exact h0
  · intro t' hl
    by_cases ht : t' = t
    · subst ht
      rw [Function.update_same] at hl
      exact absurd hl lockPC_not_cleanup
    · rw [Function.update_noteq ht] at hl ⊢
      obtain ⟨g, hgen, hold⟩ := hI.lockHolder t' hl
      refine ⟨g, hgen, ?_⟩
      by_cases hgg : g = g0
      · subst hgg
        rw [hold0] at hold
        have : t = t' := by injection hold
        exact absurd this.symm ht
      · rw [Function.update_noteq hgg]
        exact hold
  · intro t' g hg
    by_cases ht : t' = t
    · subst ht
      rw [Function.update_same] at hg
      exact hI.stale t' g hg
    · rw [Function.update_noteq ht] at hg
      exact hI.stale t' g hg
  · intro t' ht'
    by_cases ht : t' = t
    · subst ht; rw [Function.update_same] at ht'; exact absurd ht' (by simp)
    · rw [Function.update_noteq ht] at ht'; exact hI.loadPc t' ht'
  · intro t' ht'
    by_cases ht : t' = t
    · subst ht; rw [Function.update_same] at ht'; exact absurd ht' (by simp)
    · rw [Function.update_noteq ht] at ht'; exact hI.installPc t' ht'
  · intro p hp
    rcases hI.countSrc p hp with h | ⟨t'', hf, hin⟩
    · exact Or.inl h
    · refine Or.inr ⟨t'', hf, ?_⟩
      by_cases ht : t'' = t
      · subst ht; rw [hpc] at hin; exact absurd hin (by simp)
      · rw [Function.update_noteq ht]; exact hin
  · intro t' ht'
    by_cases ht : t' = t
    · subst ht
      exact hI.lateSome t' (Or.inl hpc)
    · rw [Function.update_noteq ht] at ht'; exact hI.lateSome t' ht'
  · intro t' ht'
    by_cases ht : t' = t
    · subst ht; rw [Function.update_same] at ht'; exact absurd ht' (by simp)
    · rw [Function.update_noteq ht] at ht' ⊢
      exact hI.doneRes t' ht'

theorem inv_cleanup {K : Nat} {f : Fin K → Nat} {s : Sys K} {t : Fin K}
    (hI : Inv f s) (hpc : (s.ts t).pc = PC.cleanup) :
    Inv f { s with
      registry := Function.update s.registry (f t) none
      ts := Function.update s.ts t { s.ts t with pc := PC.ret } } := by
  have hsome : (s.models (f t)).isSome := hI.lateSome t (Or.inr (Or.inl hpc))
  refine ⟨?_, ?_, ?_, hI.countLe, hI.someCount, ?_, ?_, ?_, ?_, ?_, hI.modelsSrc⟩ <;>
    dsimp only
  · intro g t' h
    have h0 := hI.holdGen g t' h
    by_cases ht : t' = t
    · subst ht
      rw [hpc] at h0
      exact absurd h0.2 lockPC_not_cleanup
    · rw [Function.update_noteq ht]
      exact h0
  · intro t' hl
    by_cases ht : t' = t
    · subst ht
      rw [Function.update_same] at hl
      exact absurd hl lockPC_not_ret
    · rw [Function.update_noteq ht] at hl ⊢
      exact hI.lockHolder t' hl
  · intro t' g hg
    have hg' : (s.ts t').gen = some g := by
      by_cases ht : t' = t
      · subst ht; rw [Function.update_same] at hg; exact hg
      · rw [Function.update_noteq ht] at hg; exact hg
    rcases hI.stale t' g hg' with hreg | hs
    · by_cases hf : f t' = f t
      · rw [hf]
        exact Or.inr hsome
      · rw [Function.update_noteq hf]
        exact Or.inl hreg
    · exact Or.inr hs
  · intro t' ht'
    by_cases ht : t' = t
    · subst ht; rw [Function.update_same] at ht'; exact absurd ht' (by simp)
    · rw [Function.update_noteq ht] at ht'; exact hI.loadPc t' ht'
  · intro t' ht'
    by_cases ht : t' = t
    · subst ht; rw [Function.update_same] at ht'; exact absurd ht' (by simp)
    · rw [Function.update_noteq ht] at ht'; exact hI.installPc t' ht'
  · intro p hp
    rcases hI.countSrc p hp with h | ⟨t'', hf, hin⟩
    · exact Or.inl h
    · refine Or.inr ⟨t'', hf, ?_⟩
      by_cases ht : t'' = t
      · subst ht; rw [hpc] at hin; exact absurd hin (by simp)
      · rw [Function.update_noteq ht]; exact hin
  · intro t' ht'
    by_cases ht : t' = t
    · subst ht
      exact hsome
    · rw [Function.update_noteq ht] at ht'; exact hI.lateSome t' ht'
  · intro t' ht'
    by_cases ht : t' = t
    · subst ht; rw [Function.update_same] at ht'; exact absurd ht' (by simp)
    · rw [Function.update_noteq ht] at ht' ⊢
      exact hI.doneRes t' ht'

theorem inv_retStep {K : Nat} {f : Fin K → Nat} {s : Sys K} {t : Fin K}
    (hI : Inv f s) (hpc : (s.ts t).pc = PC.ret) :
    Inv f { s with
      ts := Function.update s.ts t
        { s.ts t with pc := PC.done, res := s.models (f t) } } := by
  have hsome : (s.models (f t)).isSome := hI.lateSome t (Or.inr (Or.inr hpc))
  refine ⟨?_, ?_, ?_, hI.countLe, hI.someCount, ?_, ?_, ?_, ?_, ?_, hI.modelsSrc⟩ <;>
    dsimp only
  · intro g t' h
    have h0 := hI.holdGen g t' h
    by_cases ht : t' = t
    · subst ht
      rw [hpc] at h0
      exact absurd h0.2 lockPC_not_ret
    · rw [Function.update_noteq ht]
      exact h0
  · intro t' hl
    by_cases ht : t' = t
    · subst ht
      rw [Function.update_same] at hl
      exact absurd hl lockPC_not_done
    · rw [Function.update_noteq ht] at hl ⊢
      exact hI.lockHolder t' hl
  · intro t' g hg
    by_cases ht : t' = t
    · subst ht
      rw [Function.update_same] at hg
      exact hI.stale t' g hg
    · rw [Function.update_noteq ht] at hg
      exact hI.stale t' g hg
  · intro t' ht'
    by_cases ht : t' = t
    · subst ht; rw [Function.update_same] at ht'; exact absurd ht' (by simp)
    · rw [Function.update_noteq ht] at ht'; exact hI.loadPc t' ht'
  · intro t' ht'
    by_cases ht : t' = t
    · subst ht; rw [Function.update_same] at ht'; exact absurd ht' (by simp)
    · rw [Function.update_noteq ht] at ht'; exact hI.installPc t' ht'
  · intro p hp
    rcases hI.countSrc p hp with h | ⟨t'', hf, hin⟩
    · exact Or.inl h
    · refine Or.inr ⟨t'', hf, ?_⟩
      by_cases ht : t'' = t
      · subst ht; rw [hpc] at hin; exact absurd hin (by simp)
      · rw [Function.update_noteq ht]; exact hin
  · intro t' ht'
    by_cases ht : t' = t
    · subst ht; rw [Function.update_same] at ht'
      rcases ht' with h | h | h <;> exact absurd h (by simp)
    · rw [Function.update_noteq ht] at ht'; exact hI.lateSome t' ht'
  · intro t' ht'
    by_cases ht : t' = t
    · subst ht
      rw [Function.update_same]
      exact ⟨rfl, hsome⟩
    · rw [Function.update_noteq ht] at ht' ⊢
      exact hI.doneRes t' ht'

/-- One step of any thread preserves the invariant. -/
theorem inv_exec {K : Nat} {f : Fin K → Nat} {s : Sys K}
    (hI : Inv f s) (t : Fin K) : Inv f (exec f t s) := by
  cases hpc : (s.ts t).pc with
  | start =>
    by_cases hm : (s.models (f t)).isSome
    · simp only [exec, hpc, if_pos hm]
      exact inv_startHit hI hpc hm
    · simp only [exec, hpc, if_neg hm]
      exact inv_startMiss hI hpc
  | reg =>
    cases hr : s.registry (f t) with
    | some g =>
      simp only [exec, hpc, hr]
      exact inv_regOld hI hpc hr
    | none =>
      simp only [exec, hpc, hr]
      exact inv_regNew hI hpc hr
  | acq =>
    cases hg : (s.ts t).gen with
    | none =>
      simp only [exec, hpc, hg]
      exact hI
    | some g =>
      cases hh : s.holder g with
      | none =>
        simp only [exec, hpc, hg, hh]
        rw [← hg]
        exact inv_acquire hI hpc hg hh
      | some u =>
        simp only [exec, hpc, hg, hh]
        exact hI
  | chk =>
    by_cases hm : (s.models (f t)).isSome
    · simp only [exec, hpc, if_pos hm]
      exact inv_chkHit hI hpc hm
    · simp only [exec, hpc, if_neg hm]
      exact inv_chkMiss hI hpc (Option.not_isSome_iff_eq_none.mp hm)
  | load =>
    simp only [exec, hpc]
    exact inv_doLoad hI hpc
  | install =>
    simp only [exec, hpc]
    exact inv_doInstall hI hpc
  | rel =>
    cases hg : (s.ts t).gen with
    | none =>
      simp only [exec, hpc, hg]
      exact hI
    | some g =>
      simp only [exec, hpc, hg]
      rw [← hg]
      exact inv_release hI hpc hg
  | cleanup =>
    simp only [exec, hpc]
    exact inv_cleanup hI hpc
  | ret =>
    simp only [exec, hpc]
    exact inv_retStep hI hpc
  | done =>
    simp only [exec, hpc]
    exact hI

/-- Any schedule preserves the invariant. -/
theorem run_inv {K : Nat} {f : Fin K → Nat} (sched : List (Fin K))
    {s : Sys K} (hI : Inv f s) : Inv f (run f sched s) := by
  induction sched generalizing s with
  | nil => exact hI
  | cons t r ih => exact ih (inv_exec hI t)

/-- Every reachable state of the cache protocol satisfies the invariant. -/
theorem reaches_inv {K : Nat} {f : Fin K → Nat} {s : Sys K}
    (h : Reaches f s) : Inv f s := by
  obtain ⟨sched, rfl⟩ := h
  exact run_inv sched (init_inv f)

theorem preloadTasks_length (srv : Server) :
    (preloadTasks srv).length = srv.poolSize * srv.models.length := by
  simp only [preloadTasks]
  induction srv.poolSize with
  | zero => simp
  | succ n ih =>
    rw [List.range_succ, List.flatMap_append, List.length_append, ih]
    simp [Nat.succ_mul]

/-- C1: in every complete interleaving of `K ≥ 2` concurrent
`_load_model` callers for the same uncached location `p`, exactly one
`PPO.load` is performed and every caller returns the same loaded model
handle. -/
theorem C1_single_flight_load {K : Nat} (hK : 2 ≤ K) (p : Nat) (s : Sys K)
    (hr : Reaches (fun _ => p) s) (hd : ∀ t, (s.ts t).pc = PC.done) :
    s.loadCount p = 1
    ∧ ∃ h, s.models p = some h ∧ ∀ t : Fin K, (s.ts t).res = some h := by
  have hI := reaches_inv hr
  have t0 : Fin K := ⟨0, by omega⟩
  have hd0 := hI.doneRes t0 (hd t0)
  obtain ⟨h, hh⟩ := Option.isSome_iff_exists.mp hd0.2
  refine ⟨hI.someCount p (by rw [hh]; rfl), h, hh, fun t => ?_⟩
  exact (hI.doneRes t (hd t)).1.trans hh

/-- C1 witness: two threads race for location 0; the run where thread 0
loads and thread 1 takes the fast path ends with one load and both threads
holding the same handle. -/
theorem C1_single_flight_load_witness :
    2 ≤ 2
    ∧ (∀ t : Fin 2, (c1Final.ts t).pc = PC.done)
    ∧ (c1Final.loadCount 0 = 1
      ∧ ∃ h, c1Final.models 0 = some h
        ∧ ∀ t : Fin 2, (c1Final.ts t).res = some h) :=
  ⟨by decide, by decide,
    C1_single_flight_load (by decide) 0 c1Final ⟨c1Sched, rfl⟩ (by decide)⟩

/-- C5: issuing `poolSize × catalogSize` preload tasks (one per pool slot
per catalog entry, as `_preload_models` does) against a fresh cache performs
exactly `catalogSize` real loads in every complete interleaving — one per
catalog location, none elsewhere — and the task comprehension indeed has
`poolSize × catalogSize` elements. -/
theorem C5_warmup_idempotence (P C : Nat) (hP : 1 ≤ P) (s : Sys (P * C))
    (hr : Reaches (fun t => (t : Nat) % C) s)
    (hd : ∀ t, (s.ts t).pc = PC.done) :
    (∀ p, p < C → s.loadCount p = 1)
    ∧ (∀ p, C ≤ p → s.loadCount p = 0)
    ∧ (Finset.range C).sum s.loadCount = C
    ∧ ∀ srv : Server,
        (preloadTasks srv).length = srv.poolSize * srv.models.length := by
  have hI := reaches_inv hr
  have Hlt : ∀ p, p < C → s.loadCount p = 1 := by
    intro p hp
    have hpK : p < P * C := lt_of_lt_of_le hp (Nat.le_mul_of_pos_left C hP)
    have hdt := hI.doneRes (⟨p, hpK⟩ : Fin (P * C)) (hd ⟨p, hpK⟩)
    have hft : ((⟨p, hpK⟩ : Fin (P * C)) : Nat) % C = p := Nat.mod_eq_of_lt hp
    rw [hft] at hdt
    exact hI.someCount p hdt.2
  refine ⟨Hlt, ?_, ?_, preloadTasks_length⟩
  · intro p hp
    rcases Nat.eq_zero_or_pos (s.loadCount p) with h0 | hpos
    · exact h0
    · exfalso
      rcases hI.countSrc p hpos with hsome | ⟨t'', hf'', hin⟩
      · obtain ⟨t'', hf''⟩ := hI.modelsSrc p hsome
        rcases Nat.eq_zero_or_pos C with h0 | hC
        · subst h0
          have := t''.isLt
          simp at this
        · have hmod := Nat.mod_lt (t'' : Nat) hC
          rw [hf''] at hmod
          omega
      · have hdone := hd t''
        rw [hdone] at hin
        simp at hin
  · calc (Finset.range C).sum s.loadCount
        = (Finset.range C).sum (fun _ => 1) :=
          Finset.sum_congr rfl (fun p hp => Hlt p (Finset.mem_range.mp hp))
      _ = C := by simp

/-- C5 witness: pool size 1 and catalog size 2 — two preload tasks, two
locations, two loads in total, one per location. -/
theorem C5_warmup_idempotence_witness :
    1 ≤ 1
    ∧ (∀ t : Fin (1 * 2), (c5Final.ts t).pc = PC.done)
    ∧ ((∀ p, p < 2 → c5Final.loadCount p = 1)
      ∧ (∀ p, 2 ≤ p → c5Final.loadCount p = 0)
      ∧ (Finset.range 2).sum c5Final.loadCount = 2
      ∧ ∀ srv : Server,
          (preloadTasks srv).length = srv.poolSize * srv.models.length) :=
  ⟨by decide, by decide,
    C5_warmup_idempotence 1 2 (by decide) c5Final ⟨c5Sched, rfl⟩ (by decide)⟩

end BotCommand
